import Mathlib

/-!
Shallow embedding of the Nicosia buffer code
(`Source/WebCore/platform/graphics/nicosia/NicosiaBuffer.cpp`) and the Skia
GBM buffer pool (`Source/WebCore/platform/graphics/skia/SkiaGbmBufferPool.cpp`).

Conventions of the embedding:
- An `ASSERT` contract violation is modelled by returning `none`; a call that
  succeeds returns `some` of the updated state.
- The global layers-memory counters (`s_currentLayersMemoryUsage`,
  `s_maxLayersMemoryUsage`, C++ doubles holding integral byte counts) are
  modelled exactly as integers.
- Pixel sizes are natural numbers; a buffer of `w × h` pixels accounts for
  `w * h * 4` bytes, as in the code (`size.area() * 4`).
- Blocking primitives (condition-variable waits, timers) are modelled by
  enabling conditions on transitions: a blocked call simply cannot take its
  step until the predicate holds.
-/

namespace NicosiaModel

/-- Model of `Nicosia::PaintingState` with its two values. The initial value is
`Complete` (spec section 3: "Initial: `Complete`"; the member initializer
lives in the header that is not part of the sources). -/
inductive PaintingState where
  | Complete
  | InProgress
deriving DecidableEq

/-- Model of `UnacceleratedBuffer::beginPainting` (NicosiaBuffer.cpp:120-125):
asserts `state == Complete`, then sets the state to `InProgress`. -/
def ubBeginPainting : PaintingState → Option PaintingState
  | .Complete => some .InProgress
  | .InProgress => none

/-- Model of `UnacceleratedBuffer::completePainting` (NicosiaBuffer.cpp:127-133):
asserts `state == InProgress`, sets the state to `Complete` and notifies
the condition variable. -/
def ubCompletePainting : PaintingState → Option PaintingState
  | .InProgress => some .Complete
  | .Complete => none

/-- A painting call on a buffer: either `beginPainting` or
`completePainting`. -/
inductive PaintCall where
  | begin
  | complete
deriving DecidableEq

/-- One `beginPainting`/`completePainting` call on an
`UnacceleratedBuffer`. -/
def ubPaintStep : PaintCall → PaintingState → Option PaintingState
  | .begin, s => ubBeginPainting s
  | .complete, s => ubCompletePainting s

/-- Run a sequence of painting calls on an `UnacceleratedBuffer`; the run
fails (`none`) as soon as one call violates its assertion. -/
def ubRun : List PaintCall → PaintingState → Option PaintingState
  | [], s => some s
  | c :: cs, s => (ubPaintStep c s).bind (ubRun cs)

/-- The strictly alternating call sequence of `n` begin/complete pairs. -/
def altCalls : Nat → List PaintCall
  | 0 => []
  | n + 1 => .begin :: .complete :: altCalls n

/-! ### Global layers-memory accounting (NicosiaBuffer.cpp:66-83) -/

/-- The process-wide accounting state: `s_currentLayersMemoryUsage` and
`s_maxLayersMemoryUsage` (NicosiaBuffer.cpp:67-68), both starting at zero. -/
structure MemUsage where
  current : Int
  maxUsage : Int
deriving DecidableEq

/-- The initial accounting state: both counters are zero
(NicosiaBuffer.cpp:67-68). -/
def memInit : MemUsage := { current := 0, maxUsage := 0 }

/-- The constructor-side accounting block
(NicosiaBuffer.cpp:97-101, 217-221): add the byte count to the current
usage and raise the maximum to the new current usage if it exceeds it. -/
def memAdd (bytes : Nat) (m : MemUsage) : MemUsage :=
  { current := m.current + bytes
    maxUsage := max m.maxUsage (m.current + bytes) }

/-- The destructor-side accounting block (NicosiaBuffer.cpp:113-117,
272-276): subtract the byte count from the current usage. -/
def memSub (bytes : Nat) (m : MemUsage) : MemUsage :=
  { m with current := m.current - bytes }

/-- Model of `Buffer::resetMemoryUsage` (NicosiaBuffer.cpp:70-74): set the maximum
to the current usage, returning nothing. -/
def resetMemoryUsage (m : MemUsage) : MemUsage :=
  { m with maxUsage := m.current }

/-- Model of `Buffer::getMemoryUsage` (NicosiaBuffer.cpp:76-83): return the stored
maximum and reset it to the current usage. -/
def getMemoryUsage (m : MemUsage) : Int × MemUsage :=
  (m.maxUsage, { m with maxUsage := m.current })

/-- The `UnacceleratedBuffer::UnacceleratedBuffer` accounting effect
(NicosiaBuffer.cpp:90-109): adds `size.area() * 4` bytes. The
`tryZeroedMalloc` outcome does not influence the accounting. -/
def unacceleratedCtorMem (w h : Nat) : MemUsage → MemUsage :=
  memAdd (w * h * 4)

/-- The `UnacceleratedBuffer::~UnacceleratedBuffer` accounting effect
(NicosiaBuffer.cpp:111-118): subtracts `size.area() * 4` bytes. -/
def unacceleratedDtorMem (w h : Nat) : MemUsage → MemUsage :=
  memSub (w * h * 4)

/-- The `GbmBuffer::GbmBuffer` accounting effect (NicosiaBuffer.cpp:206-222):
adds `size.area() * 4` bytes, whether or not `createGbmBuffer`
succeeded. -/
def gbmCtorMem (w h : Nat) : MemUsage → MemUsage :=
  memAdd (w * h * 4)

/-- The `GbmBuffer::~GbmBuffer` accounting effect (NicosiaBuffer.cpp:262-277):
subtracts `size.area() * 4` bytes. -/
def gbmDtorMem (w h : Nat) : MemUsage → MemUsage :=
  memSub (w * h * 4)

/-- The `AcceleratedBuffer::AcceleratedBuffer` accounting effect
(NicosiaBuffer.cpp:149-153): the constructor only stores the surface and
never touches the accounting counters. -/
def acceleratedCtorMem : MemUsage → MemUsage := fun m => m

/-- The `AcceleratedBuffer::~AcceleratedBuffer` accounting effect
(NicosiaBuffer.cpp:155, defaulted): never touches the accounting
counters. -/
def acceleratedDtorMem : MemUsage → MemUsage := fun m => m

/-- A buffer construction or destruction, tagged with the variant and, for
the variants that store a size, the pixel dimensions. -/
inductive BufOp where
  | ubCtor (w h : Nat)
  | ubDtor (w h : Nat)
  | gbmCtor (w h : Nat)
  | gbmDtor (w h : Nat)
  | accCtor
  | accDtor
deriving DecidableEq

/-- Accounting effect of one construction or destruction. -/
def bufOpStep : BufOp → MemUsage → MemUsage
  | .ubCtor w h, m => unacceleratedCtorMem w h m
  | .ubDtor w h, m => unacceleratedDtorMem w h m
  | .gbmCtor w h, m => gbmCtorMem w h m
  | .gbmDtor w h, m => gbmDtorMem w h m
  | .accCtor, m => acceleratedCtorMem m
  | .accDtor, m => acceleratedDtorMem m

/-- Run a sequence of constructions/destructions against the global
counters. -/
def runBufOps : List BufOp → MemUsage → MemUsage
  | [], m => m
  | o :: os, m => runBufOps os (bufOpStep o m)

/-- An operation touching the global counters: a construction or
destruction, a `resetMemoryUsage`, or a `getMemoryUsage` (whose returned
value is irrelevant to the counter state). -/
inductive MemOp where
  | buf (o : BufOp)
  | reset
  | sample
deriving DecidableEq

/-- Counter effect of one `MemOp`. -/
def memOpStep : MemOp → MemUsage → MemUsage
  | .buf o, m => bufOpStep o m
  | .reset, m => resetMemoryUsage m
  | .sample, m => (getMemoryUsage m).2

/-- Run a sequence of counter operations. -/
def runMemOps : List MemOp → MemUsage → MemUsage
  | [], m => m
  | o :: os, m => runMemOps os (memOpStep o m)

/-- The peak current-usage value observed while running a sequence of
constructions/destructions: the maximum over the value before the first
operation and the values after each operation. -/
def trajPeak (m : MemUsage) : List BufOp → Int
  | [] => m.current
  | o :: os => max m.current (trajPeak (bufOpStep o m) os)

/-- One accounting-relevant buffer construction: `true` selects an
`UnacceleratedBuffer` of `w × h` pixels, `false` a `GbmBuffer`. -/
def ctorOp (isUnaccelerated : Bool) (w h : Nat) : BufOp :=
  if isUnaccelerated then .ubCtor w h else .gbmCtor w h

/-- The destruction matching `ctorOp`. -/
def dtorOp (isUnaccelerated : Bool) (w h : Nat) : BufOp :=
  if isUnaccelerated then .ubDtor w h else .gbmDtor w h

/-- The constructions of a list of buffers, each given by its variant and
pixel dimensions. -/
def ctorOps (l : List (Bool × Nat × Nat)) : List BufOp :=
  l.map fun v => ctorOp v.1 v.2.1 v.2.2

/-- The destructions matching `ctorOps`. -/
def dtorOps (l : List (Bool × Nat × Nat)) : List BufOp :=
  l.map fun v => dtorOp v.1 v.2.1 v.2.2

/-- The total byte contribution `Σ bytes_i` of a list of buffers, with
`bytes_i = width_i * height_i * 4`. -/
def totalBytes (l : List (Bool × Nat × Nat)) : Int :=
  (l.map fun v => ((v.2.1 * v.2.2 * 4 : Nat) : Int)).sum

/-! ### GbmBuffer painting, mapping and waiting (NicosiaBuffer.cpp:279-331) -/

/-- The per-buffer painting/mapping state of a `GbmBuffer`: the painting
state, plus the CPU mapping triple `m_data` / `m_mapData` / `m_surface`.
Pointers are abstracted as `Option Nat` (`none` is the null pointer) and
the Skia surface as `Option Unit`. -/
structure GbmPaintState where
  painting : PaintingState
  dataPtr : Option Nat
  mapToken : Option Nat
  surface : Option Unit
deriving DecidableEq

/-- The freshly constructed state: painting `Complete`, nothing mapped. -/
def gbmPaintInit : GbmPaintState :=
  { painting := .Complete, dataPtr := none, mapToken := none, surface := none }

/-- The environment a `GbmBuffer::map` call runs against: whether
`gbm_bo_map` yields a usable address, and the address/token it yields on
success. A failed `gbm_bo_map` leaves a null data pointer, and
`SkSurfaces::WrapPixels` over null pixels yields no surface. -/
structure MapEnv where
  mapSucceeds : Bool
  mapPtr : Nat
  mapToken : Nat
deriving DecidableEq

/-- Model of `GbmBuffer::map` (NicosiaBuffer.cpp:312-321): if no surface exists,
map the buffer object and wrap the pixels as a paint surface. -/
def gbmMap (env : MapEnv) (s : GbmPaintState) : GbmPaintState :=
  if s.surface = none then
    if env.mapSucceeds then
      { s with dataPtr := some env.mapPtr, mapToken := some env.mapToken
               surface := some () }
    else
      { s with dataPtr := none, mapToken := none, surface := none }
  else s

/-- Model of `GbmBuffer::unmap` (NicosiaBuffer.cpp:323-331): if a map token exists,
unmap and clear the data pointer, the token and the surface. -/
def gbmUnmap (s : GbmPaintState) : GbmPaintState :=
  if s.mapToken ≠ none then
    { s with mapToken := none, dataPtr := none, surface := none }
  else s

/-- Model of `GbmBuffer::beginPainting` (NicosiaBuffer.cpp:285-293): asserts
`state == Complete`, maps the buffer when the data pointer is null, and
sets the state to `InProgress`. -/
def gbmBeginPainting (env : MapEnv) (s : GbmPaintState) : Option GbmPaintState :=
  match s.painting with
  | .Complete =>
      let s₁ := if s.dataPtr = none then gbmMap env s else s
      some { s₁ with painting := .InProgress }
  | .InProgress => none

/-- Model of `GbmBuffer::completePainting` (NicosiaBuffer.cpp:295-301): asserts
`state == InProgress`, sets the state to `Complete` and notifies the
condition variable. -/
def gbmCompletePainting (s : GbmPaintState) : Option GbmPaintState :=
  match s.painting with
  | .InProgress => some { s with painting := .Complete }
  | .Complete => none

/-- One painting call on a `GbmBuffer`. -/
def gbmPaintStep (env : MapEnv) : PaintCall → GbmPaintState → Option GbmPaintState
  | .begin, s => gbmBeginPainting env s
  | .complete, s => gbmCompletePainting s

/-- Run a sequence of painting calls on a `GbmBuffer`. -/
def gbmRun (env : MapEnv) : List PaintCall → GbmPaintState → Option GbmPaintState
  | [], s => some s
  | c :: cs, s => (gbmPaintStep env c s).bind (gbmRun env cs)

/-- An event observable on one `GbmBuffer` in an interleaving of a painter
thread and waiter threads: a `beginPainting` call, a `completePainting`
call, or the return of a `waitUntilPaintingComplete` call. -/
inductive PaintEvent where
  | begin
  | complete
  | waitReturn
deriving DecidableEq

/-- One event step. `waitUntilPaintingComplete`
(NicosiaBuffer.cpp:303-310) blocks on the predicate
`state == Complete`; its return is therefore enabled exactly when the
state is `Complete`, and on return it unmaps the buffer. A disabled or
assertion-violating event yields `none`: such an interleaving is not
realizable. -/
def gbmEventStep (env : MapEnv) : PaintEvent → GbmPaintState → Option GbmPaintState
  | .begin, s => gbmBeginPainting env s
  | .complete, s => gbmCompletePainting s
  | .waitReturn, s =>
      match s.painting with
      | .Complete => some (gbmUnmap s)
      | .InProgress => none

/-- Run an event interleaving on a `GbmBuffer`. -/
def gbmEvRun (env : MapEnv) : List PaintEvent → GbmPaintState → Option GbmPaintState
  | [], s => some s
  | e :: es, s => (gbmEventStep env e s).bind (gbmEvRun env es)

/-- Coherence of the mapping triple: when no map token is held, the data
pointer and the paint surface are clear as well. Holds in every reachable
`GbmPaintState`. -/
def MapClean (s : GbmPaintState) : Prop :=
  s.mapToken = none → s.dataPtr = none ∧ s.surface = none

/-- One event step on an `UnacceleratedBuffer`.
`UnacceleratedBuffer::waitUntilPaintingComplete`
(NicosiaBuffer.cpp:135-141) blocks on the predicate `state == Complete`;
its return is therefore enabled exactly when the state is `Complete` and
leaves the state unchanged (no unmapping happens for this variant). A
disabled or assertion-violating event yields `none`: such an interleaving
is not realizable. -/
def ubEventStep : PaintEvent → PaintingState → Option PaintingState
  | .begin, s => ubBeginPainting s
  | .complete, s => ubCompletePainting s
  | .waitReturn, s =>
      match s with
      | .Complete => some .Complete
      | .InProgress => none

/-- Run an event interleaving on an `UnacceleratedBuffer`. -/
def ubEvRun : List PaintEvent → PaintingState → Option PaintingState
  | [], s => some s
  | e :: es, s => (ubEventStep e s).bind (ubEvRun es)

/-! ### GbmBuffer kernel-buffer creation and destruction
(NicosiaBuffer.cpp:200-277) -/

/-- The constant `DRM_FORMAT_MOD_INVALID` from `drm_fourcc.h` (external header). -/
def DRM_FORMAT_MOD_INVALID : Nat := 0x00ffffffffffffff

/-- The constant `DRM_FORMAT_MOD_LINEAR` from `drm_fourcc.h` (external header). -/
def DRM_FORMAT_MOD_LINEAR : Nat := 0

/-- The constant `DRM_FORMAT_ARGB8888` from `drm_fourcc.h` (external header). -/
def DRM_FORMAT_ARGB8888 : Nat := 0x34325241

/-- A kernel buffer object (`struct gbm_bo`) as far as this code queries
it: dimensions, pixel format, plane count, per-plane export data, and the
layout modifier reported by `gbm_bo_get_modifier`. -/
structure GbmBo where
  width : Nat
  height : Nat
  format : Nat
  planeCount : Nat
  planeFd : Nat → Nat
  planeOffset : Nat → Nat
  planeStride : Nat → Nat
  modifier : Nat

/-- The environment a `GbmBuffer::createGbmBuffer` call runs against:
whether a GBM render-node device exists, whether the one-element modifier
array `malloc` succeeds, and the results of the two allocation attempts
(`gbm_bo_create_with_modifiers2` with the linear modifier, then the
`gbm_bo_create` fallback with the `GBM_BO_USE_LINEAR` flag). -/
structure GbmAllocEnv where
  hasDevice : Bool
  mallocSucceeds : Bool
  createWithModifiers : Option GbmBo
  createFallback : Option GbmBo

/-- Model of `GbmBuffer::createGbmBuffer` (NicosiaBuffer.cpp:224-260): returns the
resulting buffer object (or `none` on failure, which is only logged) and
the value of `m_modifier` afterwards. The modifier is reset to
`DRM_FORMAT_MOD_INVALID` before the attempts and set from the buffer
object only when the with-modifiers allocation succeeds. -/
def createGbmBuffer (env : GbmAllocEnv) : Option GbmBo × Nat :=
  if ¬env.hasDevice then
    (none, DRM_FORMAT_MOD_INVALID)
  else
    let modifiersCount : Nat := if env.mallocSucceeds then 1 else 0
    let (bo₁, modifier₁) : Option GbmBo × Nat :=
      if modifiersCount > 0 then
        match env.createWithModifiers with
        | some bo => (some bo, bo.modifier)
        | none => (none, DRM_FORMAT_MOD_INVALID)
      else (none, DRM_FORMAT_MOD_INVALID)
    match bo₁ with
    | some bo => (some bo, modifier₁)
    | none => (env.createFallback, modifier₁)

/-- The full state of a `GbmBuffer` instance as far as construction and
destruction are concerned: size, alpha flag, buffer object, modifier,
painting/mapping state, and the cached GL texture id (`0` = unset). -/
structure GbmBufferState where
  width : Nat
  height : Nat
  supportsAlpha : Bool
  bo : Option GbmBo
  modifier : Nat
  paint : GbmPaintState
  textureID : Nat

/-- Model of `GbmBuffer::GbmBuffer` (NicosiaBuffer.cpp:206-222): runs
`createGbmBuffer` and then adds `size.area() * 4` bytes to the global
counters, whether or not the kernel allocation succeeded. The painting
state starts `Complete` with nothing mapped. -/
def gbmConstruct (env : GbmAllocEnv) (w h : Nat) (alpha : Bool) (m : MemUsage) :
    GbmBufferState × MemUsage :=
  let (bo, modifier) := createGbmBuffer env
  ({ width := w, height := h, supportsAlpha := alpha, bo := bo
     modifier := modifier, paint := gbmPaintInit, textureID := 0 },
   gbmCtorMem w h m)

/-- Model of `GbmBuffer::~GbmBuffer` (NicosiaBuffer.cpp:262-277): deletes the GL
texture, unmaps and destroys the buffer object when one exists, and
subtracts `size.area() * 4` bytes from the global counters. -/
def gbmDestruct (s : GbmBufferState) (m : MemUsage) : MemUsage :=
  gbmDtorMem s.width s.height m

/-! ### GbmBuffer texture import (NicosiaBuffer.cpp:333-397) -/

/-- The names of the EGL attributes this code assembles; the numeric EGL
constants live in external headers, so the attribute keys are kept
symbolic. -/
inductive EGLAttrName where
  | width
  | height
  | fourcc
  | planeFd (i : Nat)
  | planeOffset (i : Nat)
  | planePitch (i : Nat)
  | planeModifierHi (i : Nat)
  | planeModifierLo (i : Nat)
  | sentinel
deriving DecidableEq

/-- The `ADD_PLANE_ATTRIBUTES(planeIndex)` block
(NicosiaBuffer.cpp:348-365): the plane descriptor, offset and pitch, and,
when the modifier is valid, its high and low 32-bit halves. -/
def planeAttributes (bo : GbmBo) (modifier : Nat) (i : Nat) :
    List (EGLAttrName × Nat) :=
  [(.planeFd i, bo.planeFd i), (.planeOffset i, bo.planeOffset i),
   (.planePitch i, bo.planeStride i)] ++
  (if modifier ≠ DRM_FORMAT_MOD_INVALID then
    [(.planeModifierHi i, modifier / 2 ^ 32),
     (.planeModifierLo i, modifier % 2 ^ 32)]
  else [])

/-- The full attribute list assembled by `GbmBuffer::createTexture`
(NicosiaBuffer.cpp:342-378): width, height and format, then the
attributes of each present plane (the code unrolls planes 0 to 3), then
the `EGL_NONE` terminator. -/
def textureAttributes (bo : GbmBo) (modifier : Nat) : List (EGLAttrName × Nat) :=
  [(.width, bo.width), (.height, bo.height), (.fourcc, bo.format)] ++
  (if bo.planeCount > 0 then planeAttributes bo modifier 0 else []) ++
  (if bo.planeCount > 1 then planeAttributes bo modifier 1 else []) ++
  (if bo.planeCount > 2 then planeAttributes bo modifier 2 else []) ++
  (if bo.planeCount > 3 then planeAttributes bo modifier 3 else []) ++
  [(.sentinel, 0)]

/-- The GL-side state `createTexture` mutates: the texture id (`0` =
unset, as `glGenTextures` never returns `0`), the filter and wrap
parameters set on it, and the EGL image bound as its storage. -/
structure TexState where
  textureID : Nat
  magFilterLinear : Bool
  minFilterLinear : Bool
  wrapSClampToEdge : Bool
  wrapTClampToEdge : Bool
  boundImage : Option Nat
deriving DecidableEq

/-- The texture state of a freshly constructed buffer: id `0`, nothing
configured. -/
def texInit : TexState :=
  { textureID := 0, magFilterLinear := false, minFilterLinear := false
    wrapSClampToEdge := false, wrapTClampToEdge := false, boundImage := none }

/-- The environment a `GbmBuffer::createTexture` call runs against:
`PlatformDisplay::createEGLImage` over the assembled attribute list
(`none` on failure), and the texture name the `glGenTextures` call
yields. -/
structure TexEnv where
  createEGLImage : List (EGLAttrName × Nat) → Option Nat
  genTexture : Nat

/-- Model of `GbmBuffer::createTexture` (NicosiaBuffer.cpp:333-397): a no-op when a
texture id already exists; otherwise assembles the attribute list and
creates an EGL image — on failure it logs and returns with the texture id
still unset, on success it generates a texture, sets linear filtering and
edge-clamp wrapping, and binds the image as the texture storage. -/
def createTexture (env : TexEnv) (bo : GbmBo) (modifier : Nat) (st : TexState) :
    TexState :=
  if st.textureID ≠ 0 then st
  else
    match env.createEGLImage (textureAttributes bo modifier) with
    | none => st
    | some image =>
        { textureID := env.genTexture
          magFilterLinear := true, minFilterLinear := true
          wrapSClampToEdge := true, wrapTClampToEdge := true
          boundImage := some image }

end NicosiaModel

namespace PoolModel

open NicosiaModel

/-! ### SkiaGbmBufferPool (SkiaGbmBufferPool.cpp) -/

/-- A pixel size, as requested from the pool. -/
structure IntSize where
  width : Nat
  height : Nat
deriving DecidableEq

/-- One pool entry (`SkiaGbmBufferPool::Entry`, declared in the header
that is not part of the sources). It wraps one pooled buffer, identified
here by a numeric id; the size and alpha flag mirror the buffer fields the
pool queries.

Modelled from the spec: the `Entry` declaration (with `lastUsedTime`,
`markIsInUse` and `canBeReleased`) is missing from the sources; per the
spec a `PoolEntry` "wraps one pooled Buffer with `lastUsedTime`", updated
every time the entry is handed out. -/
structure PoolEntry where
  bufferId : Nat
  size : IntSize
  supportsAlpha : Bool
  lastUsedTime : Nat
deriving DecidableEq

/-- The pool state: the entry list `m_buffers`, the id to give the next
created buffer, and the deadline of the one-shot
`m_releaseUnusedBuffersTimer` when it is active. Time is in
milliseconds. -/
structure Pool where
  buffers : List PoolEntry
  nextId : Nat
  timerDeadline : Option Nat
deriving DecidableEq

/-- The reference-count environment: how many references each buffer id
has at the moment of the call (the pool holds one of them). -/
def RefCounts : Type := Nat → Nat

/-- The `releaseUnusedBuffersTimerInterval` constant, 500 ms
(SkiaGbmBufferPool.cpp:84). -/
def releaseUnusedBuffersTimerInterval : Nat := 500

/-- The `releaseUnusedSecondsTolerance` constant, 5 s
(SkiaGbmBufferPool.cpp:94), in milliseconds. -/
def releaseUnusedSecondsTolerance : Nat := 5000

/-- The `std::find_if` predicate of `SkiaGbmBufferPool::acquireBuffer`
(SkiaGbmBufferPool.cpp:54-56): reference count exactly one, and size and
alpha support matching the request exactly. -/
def matchesRequest (refs : RefCounts) (size : IntSize) (alpha : Bool)
    (e : PoolEntry) : Bool :=
  refs e.bufferId == 1 && e.size == size && e.supportsAlpha == alpha

/-- Model of `SkiaGbmBufferPool::scheduleReleaseUnusedBuffers`
(SkiaGbmBufferPool.cpp:79-86): a no-op when the timer is already active;
otherwise starts the one-shot timer for 500 ms from now. -/
def scheduleReleaseUnusedBuffers (now : Nat) (p : Pool) : Pool :=
  if p.timerDeadline.isSome then p
  else { p with timerDeadline := some (now + releaseUnusedBuffersTimerInterval) }

/-- Model of `Entry::markIsInUse` on the entry with the given id.

Modelled from the spec: "`lastUsedTime` updated every time the entry is
handed out". -/
def markIsInUse (id now : Nat) (p : Pool) : Pool :=
  { p with buffers := p.buffers.map fun e =>
      if e.bufferId = id then { e with lastUsedTime := now } else e }

/-- Model of `SkiaGbmBufferPool::createGbmBuffer` (SkiaGbmBufferPool.cpp:72-77):
`Nicosia::GbmBuffer::create` always yields a live object, so the call
always produces a buffer; it allocates the next fresh id. -/
def poolCreateGbmBuffer (size : IntSize) (alpha : Bool) (now : Nat) (p : Pool) :
    Option (Nat × Pool) :=
  some (p.nextId,
    { p with
      buffers := p.buffers ++
        [{ bufferId := p.nextId, size := size, supportsAlpha := alpha
           lastUsedTime := now }]
      nextId := p.nextId + 1 })

/-- Model of `SkiaGbmBufferPool::acquireBuffer` (SkiaGbmBufferPool.cpp:52-70):
select the first entry whose buffer has reference count one and whose
size and alpha support match exactly; when none matches, create a new
buffer and append it as a new entry (returning `none` if creation fails,
which it never does). Then schedule the eviction timer, mark the selected
entry in use, and return its buffer. -/
def acquireBuffer (refs : RefCounts) (now : Nat) (size : IntSize) (alpha : Bool)
    (p : Pool) : Option (Nat × Pool) :=
  match p.buffers.find? (matchesRequest refs size alpha) with
  | some e =>
      some (e.bufferId, markIsInUse e.bufferId now (scheduleReleaseUnusedBuffers now p))
  | none =>
      match poolCreateGbmBuffer size alpha now p with
      | none => none
      | some (id, p₁) =>
          some (id, markIsInUse id now (scheduleReleaseUnusedBuffers now p₁))

/-- Model of `Entry::canBeReleased(minUsedTime)`.

Modelled from the spec: the `Entry` declaration is missing from the
sources; per the spec the sweep "removes every entry whose `lastUsedTime`
is older than a fixed tolerance AND is not currently referenced
elsewhere". -/
def canBeReleased (refs : RefCounts) (minUsedTime : Nat) (e : PoolEntry) : Bool :=
  e.lastUsedTime < minUsedTime && refs e.bufferId == 1

/-- Model of `SkiaGbmBufferPool::releaseUnusedBuffersTimerFired`
(SkiaGbmBufferPool.cpp:88-105): the one-shot timer is no longer active
once it fires; if the pool is empty the sweep returns at once; otherwise
it removes every entry releasable relative to `now - 5 s` and reschedules
the timer when entries remain. -/
def releaseUnusedBuffersTimerFired (refs : RefCounts) (now : Nat) (p : Pool) :
    Pool :=
  let p₀ := { p with timerDeadline := none }
  if p₀.buffers.isEmpty then p₀
  else
    let minUsedTime := now - releaseUnusedSecondsTolerance
    let p₁ := { p₀ with
      buffers := p₀.buffers.filter fun e => ! canBeReleased refs minUsedTime e }
    if p₁.buffers.isEmpty then p₁
    else scheduleReleaseUnusedBuffers now p₁

/-- Look up the entry holding a given buffer id. -/
def findEntry (p : Pool) (id : Nat) : Option PoolEntry :=
  p.buffers.find? fun e => e.bufferId == id

/-- Well-formedness of a pool: every entry id is below `nextId` and ids
are distinct (true of every pool built through `acquireBuffer`, since
fresh buffers take the incremented `nextId`). -/
def PoolWF (p : Pool) : Prop :=
  (∀ e ∈ p.buffers, e.bufferId < p.nextId) ∧
  (p.buffers.map PoolEntry.bufferId).Nodup

end PoolModel

/-! ## Theorems -/

open NicosiaModel PoolModel

section PaintingAlternation

lemma ubRun_altCalls (n : Nat) :
    ubRun (altCalls n) .Complete = some .Complete := by
  induction n with
  | zero => rfl
  | succ n ih =>
      simpa [altCalls, ubRun, ubPaintStep, ubBeginPainting, ubCompletePainting]
        using ih

lemma ubRun_append (l₁ l₂ : List PaintCall) (s : PaintingState) :
    ubRun (l₁ ++ l₂) s = (ubRun l₁ s).bind (ubRun l₂) := by
  induction l₁ generalizing s with
  | nil => simp [ubRun]
  | cons c cs ih =>
      simp only [List.cons_append, ubRun, Option.bind_assoc]
      cases ubPaintStep c s with
      | none => rfl
      | some s₁ => simpa using ih s₁

lemma gbmRun_altCalls (env : MapEnv) (n : Nat) :
    ∀ s : GbmPaintState, s.painting = .Complete →
      ∃ s', gbmRun env (altCalls n) s = some s' ∧ s'.painting = .Complete := by
  induction n with
  | zero => exact fun s hs => ⟨s, rfl, hs⟩
  | succ n ih =>
      intro s hs
      obtain ⟨s', h', hp'⟩ :=
        ih { (if s.dataPtr = none then gbmMap env s else s) with
              painting := .Complete } rfl
      refine ⟨s', ?_, hp'⟩
      simp [altCalls, gbmRun, gbmPaintStep, gbmBeginPainting,
        gbmCompletePainting, hs, h']

lemma gbmRun_append (env : MapEnv) (l₁ l₂ : List PaintCall) (s : GbmPaintState) :
    gbmRun env (l₁ ++ l₂) s = (gbmRun env l₁ s).bind (gbmRun env l₂) := by
  induction l₁ generalizing s with
  | nil => simp [gbmRun]
  | cons c cs ih =>
      simp only [List.cons_append, gbmRun, Option.bind_assoc]
      cases gbmPaintStep env c s with
      | none => rfl
      | some s₁ => simpa using ih s₁

/-- C1: starting from the initial `Complete` state, a strictly alternating
sequence of `beginPainting`/`completePainting` calls on an
`UnacceleratedBuffer` or a `GbmBuffer` succeeds, leaving the state
`InProgress` after each `beginPainting` and `Complete` after each
`completePainting`; calling `beginPainting` outside `Complete` or
`completePainting` outside `InProgress` violates the assertion. -/
theorem c1_painting_alternation :
    (∀ n, ubRun (altCalls n) .Complete = some .Complete) ∧
    (∀ n, ubRun (altCalls n ++ [.begin]) .Complete = some .InProgress) ∧
    (∀ env n, Option.map GbmPaintState.painting
        (gbmRun env (altCalls n) gbmPaintInit) = some .Complete) ∧
    (∀ env n, ∃ s, gbmRun env (altCalls n ++ [.begin]) gbmPaintInit = some s ∧
        s.painting = .InProgress) ∧
    (∀ s, s ≠ .Complete → ubBeginPainting s = none) ∧
    (∀ s, s ≠ .InProgress → ubCompletePainting s = none) ∧
    (∀ env s, s.painting ≠ .Complete → gbmBeginPainting env s = none) ∧
    (∀ s, s.painting ≠ .InProgress → gbmCompletePainting s = none) := by
  refine ⟨ubRun_altCalls, fun n => ?_, fun env n => ?_, fun env n => ?_,
    fun s hs => ?_, fun s hs => ?_, fun env s hs => ?_, fun s hs => ?_⟩
  · rw [ubRun_append, ubRun_altCalls]
    rfl
  · obtain ⟨s', h', hp'⟩ := gbmRun_altCalls env n gbmPaintInit rfl
    rw [h']
    simp [hp']
  · obtain ⟨s', h', hp'⟩ := gbmRun_altCalls env n gbmPaintInit rfl
    rw [gbmRun_append, h']
    refine ⟨{ (if s'.dataPtr = none then gbmMap env s' else s') with
        painting := .InProgress }, ?_, rfl⟩
    simp [gbmRun, gbmPaintStep, gbmBeginPainting, hp']
  · cases s with
    | Complete => exact absurd rfl hs
    | InProgress => rfl
  · cases s with
    | InProgress => exact absurd rfl hs
    | Complete => rfl
  · unfold gbmBeginPainting
    cases h : s.painting with
    | Complete => exact absurd h hs
    | InProgress => rfl
  · unfold gbmCompletePainting
    cases h : s.painting with
    | InProgress => exact absurd h hs
    | Complete => rfl

/-- Witness for C1 at concrete inputs: two alternating pairs succeed, a
trailing `beginPainting` leaves `InProgress`, and each out-of-turn call
violates its assertion. -/
theorem c1_painting_alternation_witness :
    ubRun (altCalls 2) .Complete = some .Complete ∧
    ubRun (altCalls 1 ++ [.begin]) .Complete = some .InProgress ∧
    ubBeginPainting .InProgress = none ∧
    ubCompletePainting .Complete = none ∧
    gbmBeginPainting ⟨true, 7, 7⟩
      { gbmPaintInit with painting := .InProgress } = none ∧
    gbmCompletePainting gbmPaintInit = none :=
  ⟨c1_painting_alternation.1 2,
   c1_painting_alternation.2.1 1,
   c1_painting_alternation.2.2.2.2.1 .InProgress (by decide),
   c1_painting_alternation.2.2.2.2.2.1 .Complete (by decide),
   c1_painting_alternation.2.2.2.2.2.2.1 ⟨true, 7, 7⟩
     { gbmPaintInit with painting := .InProgress } (by decide),
   c1_painting_alternation.2.2.2.2.2.2.2 gbmPaintInit (by decide)⟩

end PaintingAlternation

section MemoryAccounting

lemma runBufOps_append (l₁ l₂ : List BufOp) (m : MemUsage) :
    runBufOps (l₁ ++ l₂) m = runBufOps l₂ (runBufOps l₁ m) := by
  induction l₁ generalizing m with
  | nil => rfl
  | cons o os ih => simpa [runBufOps] using ih (bufOpStep o m)

lemma ctorOp_current (v : Bool) (w h : Nat) (m : MemUsage) :
    (bufOpStep (ctorOp v w h) m).current = m.current + (w * h * 4 : Nat) := by
  cases v <;>
    simp [ctorOp, bufOpStep, gbmCtorMem, unacceleratedCtorMem, memAdd]

lemma dtorOp_current (v : Bool) (w h : Nat) (m : MemUsage) :
    (bufOpStep (dtorOp v w h) m).current = m.current - (w * h * 4 : Nat) := by
  cases v <;>
    simp [dtorOp, bufOpStep, gbmDtorMem, unacceleratedDtorMem, memSub]

lemma runBufOps_ctorOps_current (l : List (Bool × Nat × Nat)) :
    ∀ m : MemUsage, (runBufOps (ctorOps l) m).current = m.current + totalBytes l := by
  induction l with
  | nil => simp [ctorOps, runBufOps, totalBytes]
  | cons v l ih =>
      intro m
      simp only [ctorOps, List.map_cons, runBufOps]
      rw [show (l.map fun v => ctorOp v.1 v.2.1 v.2.2) = ctorOps l from rfl, ih,
        ctorOp_current]
      simp only [totalBytes, List.map_cons, List.sum_cons]
      ring

lemma runBufOps_dtorOps_current (l : List (Bool × Nat × Nat)) :
    ∀ m : MemUsage, (runBufOps (dtorOps l) m).current = m.current - totalBytes l := by
  induction l with
  | nil => simp [dtorOps, runBufOps, totalBytes]
  | cons v l ih =>
      intro m
      simp only [dtorOps, List.map_cons, runBufOps]
      rw [show (l.map fun v => dtorOp v.1 v.2.1 v.2.2) = dtorOps l from rfl, ih,
        dtorOp_current]
      simp only [totalBytes, List.map_cons, List.sum_cons]
      ring

/-- C3: for any sequence of `UnacceleratedBuffer`/`GbmBuffer`
constructions, each contributing `width * height * 4` bytes, the global
current-usage counter equals the sum of the contributions after all
constructions, equals `0` again after all matching destructions, and each
destruction subtracts exactly what the matching construction added. -/
theorem c3_memory_accounting_balance :
    (∀ l : List (Bool × Nat × Nat),
      (runBufOps (ctorOps l) memInit).current = totalBytes l) ∧
    (∀ l : List (Bool × Nat × Nat),
      (runBufOps (ctorOps l ++ dtorOps l) memInit).current = 0) ∧
    (∀ (v : Bool) (w h : Nat) (m : MemUsage),
      (bufOpStep (ctorOp v w h) m).current = m.current + (w * h * 4 : Nat) ∧
      (bufOpStep (dtorOp v w h) m).current = m.current - (w * h * 4 : Nat)) := by
  refine ⟨fun l => ?_, fun l => ?_, fun v w h m => ⟨ctorOp_current v w h m,
    dtorOp_current v w h m⟩⟩
  · rw [runBufOps_ctorOps_current]
    simp [memInit]
  · rw [runBufOps_append, runBufOps_dtorOps_current, runBufOps_ctorOps_current]
    simp [memInit]

/-- Counterexample to C4: constructing an `AcceleratedBuffer` over a
10 × 10 surface leaves the global counters untouched instead of adding
its 400 byte size to the current usage. -/
theorem c4_accelerated_no_accounting_counterexample :
    acceleratedCtorMem memInit = memInit ∧
    ¬ (acceleratedCtorMem memInit).current
        = memInit.current + ((10 * 10 * 4 : Nat) : Int) := by
  constructor
  · rfl
  · decide

/-- C4 (amended): `UnacceleratedBuffer` and `GbmBuffer` constructions add
their byte size to the current usage and raise the stored peak to the new
current usage when it exceeds it, and their destructions subtract the same
amount leaving the peak untouched; `AcceleratedBuffer` construction and
destruction leave the shared counters completely unchanged. -/
theorem c4_memory_side_effects_amended :
    (∀ (w h : Nat) (m : MemUsage),
      unacceleratedCtorMem w h m = memAdd (w * h * 4) m ∧
      gbmCtorMem w h m = memAdd (w * h * 4) m ∧
      (memAdd (w * h * 4) m).current = m.current + (w * h * 4 : Nat) ∧
      (memAdd (w * h * 4) m).maxUsage
        = max m.maxUsage (m.current + (w * h * 4 : Nat)) ∧
      unacceleratedDtorMem w h m = memSub (w * h * 4) m ∧
      gbmDtorMem w h m = memSub (w * h * 4) m ∧
      (memSub (w * h * 4) m).current = m.current - (w * h * 4 : Nat) ∧
      (memSub (w * h * 4) m).maxUsage = m.maxUsage) ∧
    (∀ m : MemUsage, acceleratedCtorMem m = m ∧ acceleratedDtorMem m = m) :=
  ⟨fun _ _ _ => ⟨rfl, rfl, rfl, rfl, rfl, rfl, rfl, rfl⟩,
   fun _ => ⟨rfl, rfl⟩⟩

lemma memOpStep_invariant (o : MemOp) (m : MemUsage)
    (h : m.current ≤ m.maxUsage) :
    (memOpStep o m).current ≤ (memOpStep o m).maxUsage := by
  cases o with
  | buf b =>
      cases b with
      | ubCtor w h => exact le_max_right _ _
      | gbmCtor w h => exact le_max_right _ _
      | ubDtor w h =>
          simp only [memOpStep, bufOpStep, unacceleratedDtorMem, memSub]
          omega
      | gbmDtor w h =>
          simp only [memOpStep, bufOpStep, gbmDtorMem, memSub]
          omega
      | accCtor => exact h
      | accDtor => exact h
  | reset => exact le_refl _
  | sample => exact le_refl _

/-- C5: after any sequence of counter operations — constructions of any of
the three variants, destructions, `resetMemoryUsage` and `getMemoryUsage`
— starting from the initial zero counters, the stored peak is at least the
current usage. -/
theorem c5_peak_ge_current_invariant :
    ∀ ops : List MemOp,
      (runMemOps ops memInit).current ≤ (runMemOps ops memInit).maxUsage := by
  have general : ∀ (ops : List MemOp) (m : MemUsage),
      m.current ≤ m.maxUsage →
      (runMemOps ops m).current ≤ (runMemOps ops m).maxUsage := by
    intro ops
    induction ops with
    | nil => exact fun m h => h
    | cons o os ih => exact fun m h => ih _ (memOpStep_invariant o m h)
  exact fun ops => general ops memInit (le_refl 0)

lemma le_trajPeak (ops : List BufOp) :
    ∀ m : MemUsage, m.current ≤ trajPeak m ops := by
  induction ops with
  | nil => exact fun m => le_refl _
  | cons o os ih => exact fun m => le_max_left _ _

lemma runBufOps_maxUsage (ops : List BufOp) :
    ∀ m : MemUsage, m.current ≤ m.maxUsage →
      (runBufOps ops m).maxUsage = max m.maxUsage (trajPeak m ops) := by
  induction ops with
  | nil =>
      intro m h
      simp only [runBufOps, trajPeak]
      omega
  | cons o os ih =>
      intro m h
      have step : (bufOpStep o m).current ≤ (bufOpStep o m).maxUsage :=
        memOpStep_invariant (.buf o) m h
      have hrec := ih (bufOpStep o m) step
      have hseed := le_trajPeak os (bufOpStep o m)
      simp only [runBufOps, trajPeak, hrec]
      cases o with
      | ubCtor w h' =>
          simp only [bufOpStep, unacceleratedCtorMem, memAdd] at hseed ⊢
          omega
      | gbmCtor w h' =>
          simp only [bufOpStep, gbmCtorMem, memAdd] at hseed ⊢
          omega
      | ubDtor w h' =>
          simp only [bufOpStep, unacceleratedDtorMem, memSub] at hseed ⊢
          omega
      | gbmDtor w h' =>
          simp only [bufOpStep, gbmDtorMem, memSub] at hseed ⊢
          omega
      | accCtor =>
          simp only [bufOpStep, acceleratedCtorMem] at hseed ⊢
          omega
      | accDtor =>
          simp only [bufOpStep, acceleratedDtorMem] at hseed ⊢
          omega

/-- C8: starting from the baseline set by a `resetMemoryUsage` (or by the
state update of a previous `getMemoryUsage`, which is the same update),
after any sequence of constructions/destructions, `getMemoryUsage` returns
the peak current usage observed since that baseline and resets the stored
peak to the current usage; `resetMemoryUsage` sets the stored peak to the
current usage, returning no value and leaving the current usage
unchanged. -/
theorem c8_get_memory_usage_sampling :
    ∀ (m : MemUsage) (ops : List BufOp),
      (getMemoryUsage (runBufOps ops (resetMemoryUsage m))).1
        = trajPeak (resetMemoryUsage m) ops ∧
      (getMemoryUsage (runBufOps ops (resetMemoryUsage m))).2
        = resetMemoryUsage (runBufOps ops (resetMemoryUsage m)) ∧
      (resetMemoryUsage m).maxUsage = m.current ∧
      (resetMemoryUsage m).current = m.current := by
  intro m ops
  refine ⟨?_, rfl, rfl, rfl⟩
  have h := runBufOps_maxUsage ops (resetMemoryUsage m) (le_refl _)
  have hseed := le_trajPeak ops (resetMemoryUsage m)
  simp only [getMemoryUsage, h]
  simp only [resetMemoryUsage] at hseed ⊢
  omega

end MemoryAccounting

section WaitUntilPaintingComplete

lemma gbmUnmap_painting (s : GbmPaintState) :
    (gbmUnmap s).painting = s.painting := by
  unfold gbmUnmap
  split <;> rfl

lemma gbmMap_clean (env : MapEnv) (s : GbmPaintState) (h : MapClean s) :
    MapClean (gbmMap env s) := by
  unfold gbmMap
  split_ifs with h₁ h₂
  · intro htok
    simp at htok
  · intro _
    exact ⟨rfl, rfl⟩
  · exact h

lemma gbmUnmap_clean (s : GbmPaintState) (h : MapClean s) :
    MapClean (gbmUnmap s) := by
  unfold gbmUnmap
  split_ifs with h₁
  · intro _
    exact ⟨rfl, rfl⟩
  · exact h

lemma gbmEventStep_clean (env : MapEnv) (e : PaintEvent) (s s' : GbmPaintState)
    (h : MapClean s) (hstep : gbmEventStep env e s = some s') : MapClean s' := by
  cases e with
  | begin =>
      simp only [gbmEventStep, gbmBeginPainting] at hstep
      cases hp : s.painting with
      | InProgress => rw [hp] at hstep; exact absurd hstep (by simp)
      | Complete =>
          rw [hp] at hstep
          simp only [Option.some.injEq] at hstep
          subst hstep
          by_cases hd : s.dataPtr = none
          · simp only [hd, if_pos]
            have := gbmMap_clean env s h
            intro htok
            simp only [MapClean] at this
            exact this (by simpa using htok)
          · simp only [hd, if_neg, ite_false]
            intro htok
            exact absurd (h (by simpa using htok)).1 hd
  | complete =>
      simp only [gbmEventStep, gbmCompletePainting] at hstep
      cases hp : s.painting with
      | Complete => rw [hp] at hstep; exact absurd hstep (by simp)
      | InProgress =>
          rw [hp] at hstep
          simp only [Option.some.injEq] at hstep
          subst hstep
          intro htok
          exact h (by simpa using htok)
  | waitReturn =>
      simp only [gbmEventStep] at hstep
      cases hp : s.painting with
      | InProgress => rw [hp] at hstep; exact absurd hstep (by simp)
      | Complete =>
          rw [hp] at hstep
          simp only [Option.some.injEq] at hstep
          subst hstep
          exact gbmUnmap_clean s h

lemma gbmEvRun_clean (env : MapEnv) (evs : List PaintEvent) :
    ∀ s s' : GbmPaintState, MapClean s → gbmEvRun env evs s = some s' →
      MapClean s' := by
  induction evs with
  | nil =>
      intro s s' h hrun
      simp only [gbmEvRun, Option.some.injEq] at hrun
      subst hrun
      exact h
  | cons e es ih =>
      intro s s' h hrun
      simp only [gbmEvRun] at hrun
      cases hstep : gbmEventStep env e s with
      | none => rw [hstep] at hrun; exact absurd hrun (by simp)
      | some s₁ =>
          rw [hstep] at hrun
          exact ih s₁ s' (gbmEventStep_clean env e s s₁ h hstep) hrun

lemma gbmEvRun_balance (env : MapEnv) (evs : List PaintEvent) :
    ∀ s s' : GbmPaintState, gbmEvRun env evs s = some s' →
      evs.count .begin + (if s.painting = .InProgress then 1 else 0)
        = evs.count .complete + (if s'.painting = .InProgress then 1 else 0) := by
  induction evs with
  | nil =>
      intro s s' hrun
      simp only [gbmEvRun, Option.some.injEq] at hrun
      subst hrun
      simp
  | cons e es ih =>
      intro s s' hrun
      simp only [gbmEvRun] at hrun
      cases hstep : gbmEventStep env e s with
      | none => rw [hstep] at hrun; exact absurd hrun (by simp)
      | some s₁ =>
          rw [hstep] at hrun
          have hrec := ih s₁ s' hrun
          cases e with
          | begin =>
              simp only [gbmEventStep, gbmBeginPainting] at hstep
              cases hp : s.painting with
              | InProgress => rw [hp] at hstep; exact absurd hstep (by simp)
              | Complete =>
                  rw [hp] at hstep
                  simp only [Option.some.injEq] at hstep
                  have hp₁ : s₁.painting = .InProgress := by
                    rw [← hstep]
                  rw [hp₁] at hrec
                  rw [show (if PaintingState.InProgress = PaintingState.InProgress
                      then (1 : Nat) else 0) = 1 from rfl] at hrec
                  rw [List.count_cons_self,
                    List.count_cons_of_ne
                      (by decide : PaintEvent.complete ≠ PaintEvent.begin)]
                  rw [show (if PaintingState.Complete = PaintingState.InProgress
                      then (1 : Nat) else 0) = 0 from rfl]
                  omega
          | complete =>
              simp only [gbmEventStep, gbmCompletePainting] at hstep
              cases hp : s.painting with
              | Complete => rw [hp] at hstep; exact absurd hstep (by simp)
              | InProgress =>
                  rw [hp] at hstep
                  simp only [Option.some.injEq] at hstep
                  have hp₁ : s₁.painting = .Complete := by
                    rw [← hstep]
                  rw [hp₁] at hrec
                  rw [show (if PaintingState.Complete = PaintingState.InProgress
                      then (1 : Nat) else 0) = 0 from rfl] at hrec
                  rw [List.count_cons_self,
                    List.count_cons_of_ne
                      (by decide : PaintEvent.begin ≠ PaintEvent.complete)]
                  rw [show (if PaintingState.InProgress = PaintingState.InProgress
                      then (1 : Nat) else 0) = 1 from rfl]
                  omega
          | waitReturn =>
              simp only [gbmEventStep] at hstep
              cases hp : s.painting with
              | InProgress => rw [hp] at hstep; exact absurd hstep (by simp)
              | Complete =>
                  rw [hp] at hstep
                  simp only [Option.some.injEq] at hstep
                  have hp₁ : s₁.painting = .Complete := by
                    rw [← hstep, gbmUnmap_painting, hp]
                  rw [hp₁] at hrec
                  rw [List.count_cons_of_ne
                      (by decide : PaintEvent.begin ≠ PaintEvent.waitReturn),
                    List.count_cons_of_ne
                      (by decide : PaintEvent.complete ≠ PaintEvent.waitReturn)]
                  omega

lemma gbmEvRun_append (env : MapEnv) (l₁ l₂ : List PaintEvent)
    (s : GbmPaintState) :
    gbmEvRun env (l₁ ++ l₂) s = (gbmEvRun env l₁ s).bind (gbmEvRun env l₂) := by
  induction l₁ generalizing s with
  | nil => simp [gbmEvRun]
  | cons e es ih =>
      simp only [List.cons_append, gbmEvRun, Option.bind_assoc]
      cases gbmEventStep env e s with
      | none => rfl
      | some s₁ => simpa using ih s₁

lemma ubEvRun_append (l₁ l₂ : List PaintEvent) (s : PaintingState) :
    ubEvRun (l₁ ++ l₂) s = (ubEvRun l₁ s).bind (ubEvRun l₂) := by
  induction l₁ generalizing s with
  | nil => simp [ubEvRun]
  | cons e es ih =>
      simp only [List.cons_append, ubEvRun, Option.bind_assoc]
      cases ubEventStep e s with
      | none => rfl
      | some s₁ => simpa using ih s₁

lemma ubEvRun_balance (evs : List PaintEvent) :
    ∀ s s' : PaintingState, ubEvRun evs s = some s' →
      evs.count .begin + (if s = .InProgress then 1 else 0)
        = evs.count .complete + (if s' = .InProgress then 1 else 0) := by
  induction evs with
  | nil =>
      intro s s' hrun
      simp only [ubEvRun, Option.some.injEq] at hrun
      subst hrun
      simp
  | cons e es ih =>
      intro s s' hrun
      simp only [ubEvRun] at hrun
      cases hstep : ubEventStep e s with
      | none => rw [hstep] at hrun; exact absurd hrun (by simp)
      | some s₁ =>
          rw [hstep] at hrun
          have hrec := ih s₁ s' hrun
          cases e with
          | begin =>
              cases s with
              | InProgress =>
                  simp [ubEventStep, ubBeginPainting] at hstep
              | Complete =>
                  simp only [ubEventStep, ubBeginPainting,
                    Option.some.injEq] at hstep
                  subst hstep
                  rw [show (if (PaintingState.InProgress : PaintingState)
                      = .InProgress then (1 : Nat) else 0) = 1 from rfl] at hrec
                  rw [List.count_cons_self,
                    List.count_cons_of_ne
                      (by decide : PaintEvent.complete ≠ PaintEvent.begin)]
                  rw [show (if (PaintingState.Complete : PaintingState)
                      = .InProgress then (1 : Nat) else 0) = 0 from rfl]
                  omega
          | complete =>
              cases s with
              | Complete =>
                  simp [ubEventStep, ubCompletePainting] at hstep
              | InProgress =>
                  simp only [ubEventStep, ubCompletePainting,
                    Option.some.injEq] at hstep
                  subst hstep
                  rw [show (if (PaintingState.Complete : PaintingState)
                      = .InProgress then (1 : Nat) else 0) = 0 from rfl] at hrec
                  rw [List.count_cons_self,
                    List.count_cons_of_ne
                      (by decide : PaintEvent.begin ≠ PaintEvent.complete)]
                  rw [show (if (PaintingState.InProgress : PaintingState)
                      = .InProgress then (1 : Nat) else 0) = 1 from rfl]
                  omega
          | waitReturn =>
              cases s with
              | InProgress =>
                  simp [ubEventStep] at hstep
              | Complete =>
                  simp only [ubEventStep, Option.some.injEq] at hstep
                  subst hstep
                  rw [List.count_cons_of_ne
                      (by decide : PaintEvent.begin ≠ PaintEvent.waitReturn),
                    List.count_cons_of_ne
                      (by decide : PaintEvent.complete ≠ PaintEvent.waitReturn)]
                  omega

/-- C7: in every realizable interleaving of `beginPainting`,
`completePainting` and `waitUntilPaintingComplete` events on one buffer
starting from the initial state, a `waitUntilPaintingComplete` return is
only possible when the painting state is `Complete` — so every
`beginPainting` observed before the return has been matched by a
`completePainting`. This holds for the `UnacceleratedBuffer` wait (which
leaves the state unchanged) and for the `GbmBuffer` wait, where
additionally upon return the CPU mapping has been dropped: the data
pointer, the map token and the paint surface are all cleared. -/
theorem c7_wait_until_painting_complete :
    (∀ (evs : List PaintEvent) (s' : PaintingState),
      ubEvRun (evs ++ [.waitReturn]) .Complete = some s' →
      evs.count PaintEvent.begin = evs.count PaintEvent.complete ∧
      s' = .Complete) ∧
    (∀ (env : MapEnv) (evs : List PaintEvent) (s' : GbmPaintState),
      gbmEvRun env (evs ++ [.waitReturn]) gbmPaintInit = some s' →
      evs.count PaintEvent.begin = evs.count PaintEvent.complete ∧
      s'.painting = .Complete ∧
      s'.dataPtr = none ∧ s'.mapToken = none ∧ s'.surface = none) := by
  constructor
  · intro evs s' hrun
    rw [ubEvRun_append] at hrun
    cases hmid : ubEvRun evs .Complete with
    | none => rw [hmid] at hrun; exact absurd hrun (by simp)
    | some sMid =>
        rw [hmid] at hrun
        simp only [Option.some_bind] at hrun
        cases hstep : ubEventStep .waitReturn sMid with
        | none => simp [ubEvRun, hstep] at hrun
        | some sFin =>
            simp only [ubEvRun, hstep, Option.some_bind,
              Option.some.injEq] at hrun
            subst hrun
            cases sMid with
            | InProgress => simp [ubEventStep] at hstep
            | Complete =>
                simp only [ubEventStep, Option.some.injEq] at hstep
                subst hstep
                have hbal := ubEvRun_balance evs .Complete .Complete hmid
                refine ⟨?_, rfl⟩
                simpa using hbal
  · intro env evs s' hrun
    rw [gbmEvRun_append] at hrun
    cases hmid : gbmEvRun env evs gbmPaintInit with
    | none => rw [hmid] at hrun; exact absurd hrun (by simp)
    | some sMid =>
        rw [hmid] at hrun
        simp only [Option.some_bind] at hrun
        cases hstep : gbmEventStep env .waitReturn sMid with
        | none => simp [gbmEvRun, hstep] at hrun
        | some sFin =>
            simp only [gbmEvRun, hstep, Option.some_bind, Option.some.injEq] at hrun
            subst hrun
            simp only [gbmEventStep] at hstep
            cases hp : sMid.painting with
            | InProgress => rw [hp] at hstep; exact absurd hstep (by simp)
            | Complete =>
                rw [hp] at hstep
                simp only [Option.some.injEq] at hstep
                have hbal := gbmEvRun_balance env evs gbmPaintInit sMid hmid
                have hclean : MapClean sMid :=
                  gbmEvRun_clean env evs gbmPaintInit sMid (by intro _; exact ⟨rfl, rfl⟩) hmid
                have hcount : evs.count PaintEvent.begin = evs.count PaintEvent.complete := by
                  simp only [gbmPaintInit, hp] at hbal
                  simpa using hbal
                subst hstep
                refine ⟨hcount, by rw [gbmUnmap_painting, hp], ?_⟩
                unfold gbmUnmap
                split_ifs with h₁
                · exact ⟨rfl, rfl, rfl⟩
                · push_neg at h₁
                  obtain ⟨hd, hs⟩ := hclean h₁
                  exact ⟨hd, h₁, hs⟩

/-- Witness for C7 on both variants: the painter runs `beginPainting`
then `completePainting`, the waiter returns afterwards; the counts match,
the state is `Complete`, and for the `GbmBuffer` the mapping fields are
clear. -/
theorem c7_wait_until_painting_complete_witness :
    ([PaintEvent.begin, PaintEvent.complete].count PaintEvent.begin
        = [PaintEvent.begin, PaintEvent.complete].count PaintEvent.complete ∧
      (PaintingState.Complete : PaintingState) = .Complete) ∧
    ([PaintEvent.begin, PaintEvent.complete].count PaintEvent.begin
        = [PaintEvent.begin, PaintEvent.complete].count PaintEvent.complete ∧
      gbmPaintInit.painting = .Complete ∧
      gbmPaintInit.dataPtr = none ∧ gbmPaintInit.mapToken = none ∧
      gbmPaintInit.surface = none) :=
  ⟨c7_wait_until_painting_complete.1
      [PaintEvent.begin, PaintEvent.complete] .Complete (by decide),
   c7_wait_until_painting_complete.2 ⟨true, 11, 13⟩
      [PaintEvent.begin, PaintEvent.complete] gbmPaintInit (by decide)⟩

end WaitUntilPaintingComplete

section GbmConstruction

/-- C10: constructing a `GbmBuffer` whose kernel allocation fails — no GBM
device, or both the with-modifiers attempt and the `gbm_bo_create`
fallback fail — still yields a live buffer object (with the requested
size, initial painting state and no texture) whose `m_bo` is null, and
still adds `width * height * 4` bytes to the global current usage exactly
as a successful construction would; the matching subtraction happens only
at destruction, which restores the previous current usage. -/
theorem c10_gbm_alloc_failure_accounting :
    ∀ (env : GbmAllocEnv) (w h : Nat) (alpha : Bool) (m : MemUsage),
      (env.hasDevice = false ∨
        (env.createWithModifiers = none ∧ env.createFallback = none)) →
      (gbmConstruct env w h alpha m).1.bo = none ∧
      (gbmConstruct env w h alpha m).1.width = w ∧
      (gbmConstruct env w h alpha m).1.height = h ∧
      (gbmConstruct env w h alpha m).1.supportsAlpha = alpha ∧
      (gbmConstruct env w h alpha m).1.paint = gbmPaintInit ∧
      (gbmConstruct env w h alpha m).1.textureID = 0 ∧
      (gbmConstruct env w h alpha m).2.current
        = m.current + ((w * h * 4 : Nat) : Int) ∧
      (gbmConstruct env w h alpha m).2.maxUsage
        = max m.maxUsage (m.current + ((w * h * 4 : Nat) : Int)) ∧
      (gbmDestruct (gbmConstruct env w h alpha m).1
        (gbmConstruct env w h alpha m).2).current = m.current := by
  intro env w h alpha m hfail
  obtain ⟨bo, md, hcg⟩ : ∃ bo md, createGbmBuffer env = (bo, md) :=
    ⟨(createGbmBuffer env).1, (createGbmBuffer env).2, rfl⟩
  have hbo : bo = none := by
    have h1 : (createGbmBuffer env).1 = none := by
      unfold createGbmBuffer
      rcases hfail with hdev | ⟨hmods, hfall⟩
      · simp [hdev]
      · cases hd : env.hasDevice
        · simp [hd]
        · simp [hd, hmods, hfall]
    rw [hcg] at h1
    exact h1
  subst hbo
  refine ⟨?_, ?_, ?_, ?_, ?_, ?_, ?_, ?_, ?_⟩ <;>
    simp [gbmConstruct, hcg, gbmCtorMem, memAdd, gbmDestruct, gbmDtorMem,
      memSub]

/-- Witness for C10: with no GBM device present, a 3 × 2 `GbmBuffer` is
still constructed, has a null buffer object, adds 24 bytes to the current
usage, and its destruction restores the counter. -/
theorem c10_gbm_alloc_failure_accounting_witness :
    (gbmConstruct ⟨false, true, none, none⟩ 3 2 true memInit).1.bo = none ∧
    (gbmConstruct ⟨false, true, none, none⟩ 3 2 true memInit).1.width = 3 ∧
    (gbmConstruct ⟨false, true, none, none⟩ 3 2 true memInit).1.height = 2 ∧
    (gbmConstruct ⟨false, true, none, none⟩ 3 2 true
      memInit).1.supportsAlpha = true ∧
    (gbmConstruct ⟨false, true, none, none⟩ 3 2 true memInit).1.paint
      = gbmPaintInit ∧
    (gbmConstruct ⟨false, true, none, none⟩ 3 2 true memInit).1.textureID = 0 ∧
    (gbmConstruct ⟨false, true, none, none⟩ 3 2 true memInit).2.current
      = memInit.current + ((3 * 2 * 4 : Nat) : Int) ∧
    (gbmConstruct ⟨false, true, none, none⟩ 3 2 true memInit).2.maxUsage
      = max memInit.maxUsage (memInit.current + ((3 * 2 * 4 : Nat) : Int)) ∧
    (gbmDestruct (gbmConstruct ⟨false, true, none, none⟩ 3 2 true memInit).1
      (gbmConstruct ⟨false, true, none, none⟩ 3 2 true memInit).2).current
      = memInit.current :=
  c10_gbm_alloc_failure_accounting ⟨false, true, none, none⟩ 3 2 true memInit
    (Or.inl rfl)

end GbmConstruction

section TextureImport

/-- C9: `GbmBuffer::createTexture` is idempotent and failure-recoverable:
with a texture handle already set the call changes nothing; when
external-image creation fails the call returns with the handle still zero
and everything else untouched, so a later call with a succeeding display
retries the whole import and completes it; and on success it installs the
generated texture name with linear filtering, edge-clamp wrapping and the
external image bound as the texture storage. -/
theorem c9_create_texture_idempotent_recoverable :
    ∀ (env env₂ : TexEnv) (bo : GbmBo) (modifier : Nat) (st : TexState),
      (st.textureID ≠ 0 → createTexture env bo modifier st = st) ∧
      (st.textureID = 0 →
        env.createEGLImage (textureAttributes bo modifier) = none →
        createTexture env bo modifier st = st) ∧
      (∀ img, st.textureID = 0 →
        env.createEGLImage (textureAttributes bo modifier) = some img →
        createTexture env bo modifier st =
          { textureID := env.genTexture
            magFilterLinear := true, minFilterLinear := true
            wrapSClampToEdge := true, wrapTClampToEdge := true
            boundImage := some img }) ∧
      (∀ img₂, st.textureID = 0 →
        env.createEGLImage (textureAttributes bo modifier) = none →
        env₂.createEGLImage (textureAttributes bo modifier) = some img₂ →
        createTexture env₂ bo modifier (createTexture env bo modifier st) =
          { textureID := env₂.genTexture
            magFilterLinear := true, minFilterLinear := true
            wrapSClampToEdge := true, wrapTClampToEdge := true
            boundImage := some img₂ }) := by
  intro env env₂ bo modifier st
  refine ⟨fun h => ?_, fun h0 hfail => ?_, fun img h0 hok => ?_,
    fun img₂ h0 hfail hok₂ => ?_⟩
  · simp [createTexture, h]
  · simp [createTexture, h0, hfail]
  · simp [createTexture, h0, hok]
  · have hfirst : createTexture env bo modifier st = st := by
      simp [createTexture, h0, hfail]
    rw [hfirst]
    simp [createTexture, h0, hok₂]

/-- Witness for C9 at a concrete single-plane linear buffer object: a set
handle short-circuits, a failing display leaves the handle unset, and the
retry with a succeeding display installs the texture. -/
theorem c9_create_texture_witness :
    createTexture ⟨fun _ => some 9, 6⟩
      ⟨2, 2, DRM_FORMAT_ARGB8888, 1, fun _ => 5, fun _ => 0, fun _ => 8,
        DRM_FORMAT_MOD_LINEAR⟩ DRM_FORMAT_MOD_LINEAR
      { texInit with textureID := 4 } = { texInit with textureID := 4 } ∧
    createTexture ⟨fun _ => none, 6⟩
      ⟨2, 2, DRM_FORMAT_ARGB8888, 1, fun _ => 5, fun _ => 0, fun _ => 8,
        DRM_FORMAT_MOD_LINEAR⟩ DRM_FORMAT_MOD_LINEAR texInit = texInit ∧
    createTexture ⟨fun _ => some 9, 6⟩
      ⟨2, 2, DRM_FORMAT_ARGB8888, 1, fun _ => 5, fun _ => 0, fun _ => 8,
        DRM_FORMAT_MOD_LINEAR⟩ DRM_FORMAT_MOD_LINEAR
      (createTexture ⟨fun _ => none, 6⟩
        ⟨2, 2, DRM_FORMAT_ARGB8888, 1, fun _ => 5, fun _ => 0, fun _ => 8,
          DRM_FORMAT_MOD_LINEAR⟩ DRM_FORMAT_MOD_LINEAR texInit) =
      { textureID := 6, magFilterLinear := true, minFilterLinear := true
        wrapSClampToEdge := true, wrapTClampToEdge := true
        boundImage := some 9 } :=
  ⟨(c9_create_texture_idempotent_recoverable ⟨fun _ => some 9, 6⟩
      ⟨fun _ => some 9, 6⟩
      ⟨2, 2, DRM_FORMAT_ARGB8888, 1, fun _ => 5, fun _ => 0, fun _ => 8,
        DRM_FORMAT_MOD_LINEAR⟩ DRM_FORMAT_MOD_LINEAR
      { texInit with textureID := 4 }).1 (by decide),
   (c9_create_texture_idempotent_recoverable ⟨fun _ => none, 6⟩
      ⟨fun _ => none, 6⟩
      ⟨2, 2, DRM_FORMAT_ARGB8888, 1, fun _ => 5, fun _ => 0, fun _ => 8,
        DRM_FORMAT_MOD_LINEAR⟩ DRM_FORMAT_MOD_LINEAR texInit).2.1 rfl rfl,
   (c9_create_texture_idempotent_recoverable ⟨fun _ => none, 6⟩
      ⟨fun _ => some 9, 6⟩
      ⟨2, 2, DRM_FORMAT_ARGB8888, 1, fun _ => 5, fun _ => 0, fun _ => 8,
        DRM_FORMAT_MOD_LINEAR⟩ DRM_FORMAT_MOD_LINEAR texInit).2.2.2 9 rfl
      rfl rfl⟩

end TextureImport

section BufferPool

lemma schedule_buffers (now : Nat) (p : Pool) :
    (scheduleReleaseUnusedBuffers now p).buffers = p.buffers := by
  unfold scheduleReleaseUnusedBuffers
  split <;> rfl

lemma schedule_nextId (now : Nat) (p : Pool) :
    (scheduleReleaseUnusedBuffers now p).nextId = p.nextId := by
  unfold scheduleReleaseUnusedBuffers
  split <;> rfl

lemma markIsInUse_buffers (id now : Nat) (p : Pool) :
    (markIsInUse id now p).buffers = p.buffers.map fun e =>
      if e.bufferId = id then { e with lastUsedTime := now } else e := rfl

lemma matchesRequest_true_iff (refs : RefCounts) (size : IntSize) (alpha : Bool)
    (e : PoolEntry) :
    matchesRequest refs size alpha e = true ↔
      refs e.bufferId = 1 ∧ e.size = size ∧ e.supportsAlpha = alpha := by
  simp [matchesRequest, Bool.and_assoc, and_assoc]

lemma acquire_mem_requested (refs : RefCounts) (now : Nat) (size : IntSize)
    (alpha : Bool) (p p' : Pool) (b : Nat)
    (hacq : acquireBuffer refs now size alpha p = some (b, p')) :
    ∃ e ∈ p'.buffers, e.bufferId = b ∧ e.size = size ∧
      e.supportsAlpha = alpha ∧ e.lastUsedTime = now := by
  unfold acquireBuffer at hacq
  cases hfind : p.buffers.find? (matchesRequest refs size alpha) with
  | some e =>
      rw [hfind] at hacq
      simp only [Option.some.injEq, Prod.mk.injEq] at hacq
      obtain ⟨hb, hp'⟩ := hacq
      have hmem : e ∈ p.buffers := List.mem_of_find?_eq_some hfind
      have hpred := List.find?_some hfind
      rw [matchesRequest_true_iff] at hpred
      refine ⟨{ e with lastUsedTime := now }, ?_, by simpa using hb,
        hpred.2.1, hpred.2.2, rfl⟩
      rw [← hp', markIsInUse_buffers, schedule_buffers]
      have himg : (fun x : PoolEntry =>
          if x.bufferId = e.bufferId then { x with lastUsedTime := now } else x) e
            = { e with lastUsedTime := now } := by
        simp
      exact himg ▸ List.mem_map_of_mem _ hmem
  | none =>
      rw [hfind] at hacq
      simp only [poolCreateGbmBuffer, Option.some.injEq, Prod.mk.injEq] at hacq
      obtain ⟨hb, hp'⟩ := hacq
      refine ⟨(⟨p.nextId, size, alpha, now⟩ : PoolEntry), ?_,
        by simpa using hb, rfl, rfl, rfl⟩
      rw [← hp', markIsInUse_buffers, schedule_buffers]
      refine List.mem_map.2 ⟨(⟨p.nextId, size, alpha, now⟩ : PoolEntry), ?_,
        by simp⟩
      simp

/-- Counterexample to C2 as universally stated: in a pool holding two
entries of size 100 × 100 with alpha, entry 0 still referenced externally
and entry 1 free, `acquireBuffer(100×100, alpha)` returns buffer 1; after
buffer 1 is fully released (every reference count is now 1), the same
request returns buffer 0 — a different underlying buffer instance — because
the scan takes the first matching entry. -/
theorem c2_pool_reuse_counterexample :
    acquireBuffer (fun id => if id = 0 then 2 else 1) 10 ⟨100, 100⟩ true
        ⟨[⟨0, ⟨100, 100⟩, true, 0⟩, ⟨1, ⟨100, 100⟩, true, 0⟩], 2, none⟩
      = some (1, ⟨[⟨0, ⟨100, 100⟩, true, 0⟩, ⟨1, ⟨100, 100⟩, true, 10⟩], 2,
          some 510⟩) ∧
    Option.map Prod.fst (acquireBuffer (fun _ => 1) 20 ⟨100, 100⟩ true
        ⟨[⟨0, ⟨100, 100⟩, true, 0⟩, ⟨1, ⟨100, 100⟩, true, 10⟩], 2, some 510⟩)
      = some 0 ∧
    (0 : Nat) ≠ 1 := by
  decide

/-- C2 (amended): `acquireBuffer(S, A)` always returns a buffer whose pool
entry has exactly size `S` and alpha support `A` (so a request for a
different size never returns a buffer of size `S`); it reuses a
pre-existing entry only when that entry has reference count one and
matching size and alpha; and a subsequent `acquireBuffer(S, A)` returns
the same underlying buffer instance provided that buffer is, at that
time, the only entry matching the scan predicate — with several
simultaneously free matching entries the scan may select an earlier,
different instance. -/
theorem c2_pool_reuse_amended :
    ∀ (refs refs₂ : RefCounts) (now now₂ : Nat) (size : IntSize)
      (alpha : Bool) (p p' : Pool) (b : Nat),
      PoolWF p →
      acquireBuffer refs now size alpha p = some (b, p') →
      (∃ e ∈ p'.buffers, e.bufferId = b ∧ e.size = size ∧
        e.supportsAlpha = alpha ∧ e.lastUsedTime = now) ∧
      (∀ e ∈ p'.buffers, e.bufferId = b →
        e.size = size ∧ e.supportsAlpha = alpha) ∧
      (∀ e ∈ p.buffers, e.bufferId = b →
        refs b = 1 ∧ e.size = size ∧ e.supportsAlpha = alpha) ∧
      (refs₂ b = 1 →
        (∀ e ∈ p'.buffers, matchesRequest refs₂ size alpha e = true →
          e.bufferId = b) →
        Option.map Prod.fst (acquireBuffer refs₂ now₂ size alpha p')
          = some b) := by
  intro refs refs₂ now now₂ size alpha p p' b hwf hacq
  obtain ⟨eb, hebmem, hebid, hebsize, hebalpha, hebtime⟩ :=
    acquire_mem_requested refs now size alpha p p' b hacq
  have hinj : ∀ x ∈ p.buffers, ∀ y ∈ p.buffers,
      x.bufferId = y.bufferId → x = y :=
    fun x hx y hy hxy => List.inj_on_of_nodup_map hwf.2 hx hy hxy
  have hmain : ∀ e ∈ p'.buffers, e.bufferId = b →
      e.size = size ∧ e.supportsAlpha = alpha := by
    unfold acquireBuffer at hacq
    cases hfind : p.buffers.find? (matchesRequest refs size alpha) with
    | some e =>
        rw [hfind] at hacq
        simp only [Option.some.injEq, Prod.mk.injEq] at hacq
        obtain ⟨hb, hp'⟩ := hacq
        have hmem : e ∈ p.buffers := List.mem_of_find?_eq_some hfind
        have hpred := List.find?_some hfind
        rw [matchesRequest_true_iff] at hpred
        intro e' he' hid'
        rw [← hp', markIsInUse_buffers, schedule_buffers] at he'
        obtain ⟨x, hx, hxe'⟩ := List.mem_map.1 he'
        by_cases hxid : x.bufferId = e.bufferId
        · have hxeq : x = e := hinj x hx e hmem hxid
          subst hxeq
          rw [← hxe']
          simp only [if_pos rfl]
          exact ⟨hpred.2.1, hpred.2.2⟩
        · rw [if_neg hxid] at hxe'
          subst hxe'
          exact absurd (hid'.trans hb.symm) hxid
    | none =>
        rw [hfind] at hacq
        simp only [poolCreateGbmBuffer, Option.some.injEq, Prod.mk.injEq] at hacq
        obtain ⟨hb, hp'⟩ := hacq
        intro e' he' hid'
        rw [← hp', markIsInUse_buffers, schedule_buffers] at he'
        obtain ⟨x, hx, hxe'⟩ := List.mem_map.1 he'
        have hxid : x.bufferId = p.nextId := by
          by_cases hc : x.bufferId = p.nextId
          · exact hc
          · rw [if_neg hc] at hxe'
            subst hxe'
            exact absurd (hid'.trans hb.symm) hc
        rcases List.mem_append.1 hx with hold | hnew
        · exact absurd hxid (Nat.ne_of_lt (hwf.1 x hold))
        · have hxeq : x = (⟨p.nextId, size, alpha, now⟩ : PoolEntry) := by
            simpa using hnew
          subst hxeq
          rw [← hxe']
          split <;> exact ⟨rfl, rfl⟩
  refine ⟨⟨eb, hebmem, hebid, hebsize, hebalpha, hebtime⟩, hmain,
    ?_, ?_⟩
  · unfold acquireBuffer at hacq
    cases hfind : p.buffers.find? (matchesRequest refs size alpha) with
    | some e =>
        rw [hfind] at hacq
        simp only [Option.some.injEq, Prod.mk.injEq] at hacq
        obtain ⟨hb, _⟩ := hacq
        have hmem : e ∈ p.buffers := List.mem_of_find?_eq_some hfind
        have hpred := List.find?_some hfind
        rw [matchesRequest_true_iff] at hpred
        intro x hx hxid
        have hxeq : x = e := hinj x hx e hmem (hxid.trans hb.symm)
        subst hxeq
        exact ⟨hb ▸ hpred.1, hpred.2.1, hpred.2.2⟩
    | none =>
        rw [hfind] at hacq
        simp only [poolCreateGbmBuffer, Option.some.injEq, Prod.mk.injEq] at hacq
        obtain ⟨hb, _⟩ := hacq
        intro x hx hxid
        exact absurd (hxid.trans hb.symm) (Nat.ne_of_lt (hwf.1 x hx))
  · intro hfree huniq
    have hebmatch : matchesRequest refs₂ size alpha eb = true := by
      rw [matchesRequest_true_iff]
      exact ⟨hebid ▸ hfree, hebsize, hebalpha⟩
    unfold acquireBuffer
    cases hfind₂ : p'.buffers.find? (matchesRequest refs₂ size alpha) with
    | none =>
        exact absurd hebmatch
          (by simpa using List.find?_eq_none.1 hfind₂ eb hebmem)
    | some e₂ =>
        have he₂mem : e₂ ∈ p'.buffers := List.mem_of_find?_eq_some hfind₂
        have he₂id : e₂.bufferId = b :=
          huniq e₂ he₂mem (List.find?_some hfind₂)
        simp [he₂id]

/-- Witness for the amended C2: acquiring a 4 × 4 alpha buffer from the
empty pool creates buffer 0; once released, the next identical request
returns buffer 0 again. -/
theorem c2_pool_reuse_amended_witness :
    (∃ e ∈ (⟨[⟨0, ⟨4, 4⟩, true, 5⟩], 1, some 505⟩ : Pool).buffers,
      e.bufferId = 0 ∧ e.size = ⟨4, 4⟩ ∧ e.supportsAlpha = true ∧
      e.lastUsedTime = 5) ∧
    (∀ e ∈ (⟨[⟨0, ⟨4, 4⟩, true, 5⟩], 1, some 505⟩ : Pool).buffers,
      e.bufferId = 0 → e.size = ⟨4, 4⟩ ∧ e.supportsAlpha = true) ∧
    (∀ e ∈ (⟨[], 0, none⟩ : Pool).buffers, e.bufferId = 0 →
      (fun _ => 1 : RefCounts) 0 = 1 ∧ e.size = ⟨4, 4⟩ ∧
      e.supportsAlpha = true) ∧
    ((fun _ => 1 : RefCounts) 0 = 1 →
      (∀ e ∈ (⟨[⟨0, ⟨4, 4⟩, true, 5⟩], 1, some 505⟩ : Pool).buffers,
        matchesRequest (fun _ => 1) ⟨4, 4⟩ true e = true → e.bufferId = 0) →
      Option.map Prod.fst (acquireBuffer (fun _ => 1) 6 ⟨4, 4⟩ true
        ⟨[⟨0, ⟨4, 4⟩, true, 5⟩], 1, some 505⟩) = some 0) :=
  c2_pool_reuse_amended (fun _ => 1) (fun _ => 1) 5 6 ⟨4, 4⟩ true
    ⟨[], 0, none⟩ ⟨[⟨0, ⟨4, 4⟩, true, 5⟩], 1, some 505⟩ 0
    (by constructor <;> decide) (by decide)

lemma canBeReleased_false_of_referenced (refs : RefCounts) (mt : Nat)
    (e : PoolEntry) (href : refs e.bufferId ≠ 1) :
    canBeReleased refs mt e = false := by
  unfold canBeReleased
  have h1 : (refs e.bufferId == 1) = false := by
    rw [beq_eq_false_iff_ne]
    exact href
  rw [h1, Bool.and_false]

/-- C6: when the eviction timer fires, it removes from the pool exactly
those entries whose `lastUsedTime` is older than `now` minus the fixed
5-second tolerance and whose buffer is referenced only by the pool; an
entry whose buffer is still referenced externally is never removed,
regardless of idle time; and afterwards the one-shot timer is scheduled
500 ms ahead if and only if entries remain. -/
theorem c6_eviction_timer_sweep :
    ∀ (refs : RefCounts) (now : Nat) (p : Pool),
      (releaseUnusedBuffersTimerFired refs now p).buffers
        = p.buffers.filter (fun e =>
            ! canBeReleased refs (now - releaseUnusedSecondsTolerance) e) ∧
      (∀ e ∈ p.buffers,
        e ∈ (releaseUnusedBuffersTimerFired refs now p).buffers ↔
          ¬ (e.lastUsedTime < now - releaseUnusedSecondsTolerance ∧
              refs e.bufferId = 1)) ∧
      (∀ e ∈ p.buffers, refs e.bufferId ≠ 1 →
        e ∈ (releaseUnusedBuffersTimerFired refs now p).buffers) ∧
      (releaseUnusedBuffersTimerFired refs now p).timerDeadline
        = if (releaseUnusedBuffersTimerFired refs now p).buffers.isEmpty
          then none
          else some (now + releaseUnusedBuffersTimerInterval) := by
  intro refs now p
  have hbuf : (releaseUnusedBuffersTimerFired refs now p).buffers
      = p.buffers.filter (fun e =>
          ! canBeReleased refs (now - releaseUnusedSecondsTolerance) e) := by
    unfold releaseUnusedBuffersTimerFired
    cases hE : p.buffers.isEmpty with
    | true =>
        have hnil : p.buffers = [] := List.isEmpty_iff.1 hE
        simp [hnil]
    | false =>
        simp only [hE, Bool.false_eq_true, if_false]
        cases hF : (p.buffers.filter (fun e =>
            ! canBeReleased refs (now - releaseUnusedSecondsTolerance) e)).isEmpty with
        | true => simp [hF]
        | false => simp [hF, schedule_buffers]
  have hmem : ∀ e ∈ p.buffers,
      e ∈ (releaseUnusedBuffersTimerFired refs now p).buffers ↔
        ¬ (e.lastUsedTime < now - releaseUnusedSecondsTolerance ∧
            refs e.bufferId = 1) := by
    intro e he
    rw [hbuf, List.mem_filter]
    simp [he, canBeReleased, not_and]
    omega
  refine ⟨hbuf, hmem, fun e he href => (hmem e he).2 fun hc => href hc.2, ?_⟩
  unfold releaseUnusedBuffersTimerFired at hbuf ⊢
  cases hE : p.buffers.isEmpty with
  | true =>
      have hnil : p.buffers = [] := List.isEmpty_iff.1 hE
      simp [hnil]
  | false =>
      simp only [hE, Bool.false_eq_true, if_false] at hbuf ⊢
      cases hF : (p.buffers.filter (fun e =>
          ! canBeReleased refs (now - releaseUnusedSecondsTolerance) e)).isEmpty with
      | true => simp [hF]
      | false =>
          simp only [hF, Bool.false_eq_true, if_false] at hbuf ⊢
          simp [scheduleReleaseUnusedBuffers, hbuf, hF]

/-- Witness for C6: with entry 0 idle since time 0 and solely
pool-referenced and entry 1 idle but still externally referenced, a sweep
at time 6000 removes entry 0, keeps entry 1, and reschedules the timer
for 6500. -/
theorem c6_eviction_timer_sweep_witness :
    (releaseUnusedBuffersTimerFired (fun id => if id = 0 then 1 else 2) 6000
        ⟨[⟨0, ⟨4, 4⟩, true, 0⟩, ⟨1, ⟨4, 4⟩, true, 0⟩], 2, none⟩).buffers
      = List.filter (fun e =>
          ! canBeReleased (fun id => if id = 0 then 1 else 2)
            (6000 - releaseUnusedSecondsTolerance) e)
          [⟨0, ⟨4, 4⟩, true, 0⟩, ⟨1, ⟨4, 4⟩, true, 0⟩] ∧
    (⟨1, ⟨4, 4⟩, true, 0⟩ : PoolEntry) ∈
      (releaseUnusedBuffersTimerFired (fun id => if id = 0 then 1 else 2) 6000
        ⟨[⟨0, ⟨4, 4⟩, true, 0⟩, ⟨1, ⟨4, 4⟩, true, 0⟩], 2, none⟩).buffers ∧
    (releaseUnusedBuffersTimerFired (fun id => if id = 0 then 1 else 2) 6000
        ⟨[⟨0, ⟨4, 4⟩, true, 0⟩, ⟨1, ⟨4, 4⟩, true, 0⟩], 2, none⟩).timerDeadline
      = if (releaseUnusedBuffersTimerFired (fun id => if id = 0 then 1 else 2)
            6000 ⟨[⟨0, ⟨4, 4⟩, true, 0⟩, ⟨1, ⟨4, 4⟩, true, 0⟩], 2,
              none⟩).buffers.isEmpty
        then none
        else some (6000 + releaseUnusedBuffersTimerInterval) :=
  ⟨(c6_eviction_timer_sweep (fun id => if id = 0 then 1 else 2) 6000
      ⟨[⟨0, ⟨4, 4⟩, true, 0⟩, ⟨1, ⟨4, 4⟩, true, 0⟩], 2, none⟩).1,
   (c6_eviction_timer_sweep (fun id => if id = 0 then 1 else 2) 6000
      ⟨[⟨0, ⟨4, 4⟩, true, 0⟩, ⟨1, ⟨4, 4⟩, true, 0⟩], 2, none⟩).2.2.1
      ⟨1, ⟨4, 4⟩, true, 0⟩ (by decide) (by decide),
   (c6_eviction_timer_sweep (fun id => if id = 0 then 1 else 2) 6000
      ⟨[⟨0, ⟨4, 4⟩, true, 0⟩, ⟨1, ⟨4, 4⟩, true, 0⟩], 2, none⟩).2.2.2⟩

end BufferPool
